import Mathlib

/-!
Verification of the direct-to-S3 upload-job orchestrator of the
forge-api-go-client repository (package dm, upload-job source file) and of
the signed-URL download check (object download source file).

The Go source is shallowly embedded as follows:
- machine integers are Nat (all the quantities involved are nonnegative:
  file sizes reported by os.Stat, part counts, batch counts);
- the network is an explicit environment Env of response oracles, indexed
  by the request data and by the retry-attempt number;
- every outgoing HTTP request is recorded as an Event, so theorems can
  speak about the sequence of requests a run performs;
- fallible operations return Except String, mirroring the Go error values;
  the error strings reproduce the fmt.Errorf annotations of the source;
- the file being uploaded is a List Nat of its bytes together with a
  sequential read cursor, mirroring the shared os.File cursor; read
  failures other than EOF are injected through Env.readErr.
-/

namespace ForgeOss

/-- megaByte is 1048576 byte (source constant). -/
def megaByte : Nat := 1 <<< 20

/-- maxParts is the maximum number of parts returned by the signeds3upload
endpoint (source constant, 25). -/
def maxParts : Nat := 25

/-- minutesExpiration is the expiration period of the signed upload URLs
(source constant, 60). -/
def minutesExpiration : Nat := 60

/-- signedS3UploadEndpoint is the name of the signeds3upload endpoint. -/
def signedS3UploadEndpoint : String := "signeds3upload"

/-- defaultSize is the default size of download/upload chunks
(source: 100 * megaByte). -/
def defaultSize : Nat := 100 * megaByte

/-- Response of the signeds3upload GET endpoint: an uploadKey and the list
of signed URLs (source struct signedUploadUrls; the ordered JSON url map
is modelled as a list in part order). -/
structure signedUploadUrls where
  uploadKey : String
  urls : List String
deriving Repr, DecidableEq

/-- Modelled from the spec: the finalize response, an object descriptor
with identifier, size and location (struct UploadResult is declared
outside the provided sources; spec section 6 describes its content). -/
structure UploadResult where
  objectId : String
  size : Nat
  location : String
deriving Repr, DecidableEq

/-- The upload job state (source struct uploadJob; the api field is
dropped because the network is modelled by Env). -/
structure uploadJob where
  bucketKey : String
  objectKey : String
  fileToUpload : String
  minutesExpiration : Nat
  uploadKey : String
  fileSize : Nat
  totalParts : Nat
  numberOfBatches : Nat
deriving Repr

/-- newUploadJob (source lines 63-88): records the identifiers, sets
uploadKey to the empty string and derives
totalParts = fileSize / defaultSize + 1 and
numberOfBatches = totalParts / maxParts + 1 (Go integer division on
nonnegative int64 values is Nat division). The os.Stat call is modelled
by passing the file size directly. -/
def newUploadJob (bucketKey objectName fileToUpload : String) (fileSize : Nat) : uploadJob :=
  { bucketKey := bucketKey
    objectKey := objectName
    fileToUpload := fileToUpload
    minutesExpiration := minutesExpiration
    uploadKey := ""
    fileSize := fileSize
    totalParts := fileSize / defaultSize + 1
    numberOfBatches := (fileSize / defaultSize + 1) / maxParts + 1 }

/-- getParts (source lines 159-172): the number of parts processed in the
batch whose first zero-based part index is partsCounter. Go int
subtraction agrees with Nat subtraction here because uploadFile only
calls getParts with partsCounter = i * maxParts for a batch index i below
numberOfBatches, where the subtraction is nonnegative. -/
def uploadJob.getParts (job : uploadJob) (partsCounter : Nat) : Nat :=
  if job.totalParts < partsCounter + maxParts then job.totalParts - partsCounter
  else maxParts

/-- One outgoing HTTP request of a run: a signeds3upload GET with its
query data, a chunk PUT with its payload and Content-Length, or the
finalize POST with its JSON body fields. -/
inductive Event where
  | urlReq (firstPart parts minutesExp : Nat) (uploadKeyParam : Option String)
  | chunkPut (url : String) (body : List Nat) (contentLength : Nat)
  | finalizeReq (uploadKey : String) (size : Nat)
deriving Repr, DecidableEq

/-- The network and file-system environment of a run. Each response
oracle takes the request data and the zero-based retry-attempt number.
readErr injects a non-EOF file read error at a given read index. -/
structure Env where
  urlResp : Nat → Nat → Option String → Nat → Except String signedUploadUrls
  chunkResp : String → List Nat → Nat → Except String Unit
  finalizeResp : String → Nat → Nat → Except String UploadResult
  readErr : Nat → Option String

/-- Modelled from the spec: the retry wrapper of the external
github.com/thedevsaddam/retry dependency (spec section 4.4): a fixed
attempt count, a fixed wait interval (the interval has no observable
effect in this model and is dropped), first success returned, the last
error returned once the attempts are exhausted. The op argument takes the
zero-based attempt number; remaining counts the attempts left after the
current one. -/
def retryGo {ε α : Type} (op : Nat → Except ε α × List Event) (i : Nat) :
    Nat → Except ε α × List Event
  | 0 => op i
  | r + 1 =>
    match op i with
    | (Except.ok a, tr) => (Except.ok a, tr)
    | (Except.error _, tr) =>
      let next := retryGo op (i + 1) r
      (next.1, tr ++ next.2)

/-- Modelled from the spec: retry.Do with a total attempt budget
(spec sections 4.4 and 8): attempts invocations at most. -/
def retryDo {ε α : Type} (attempts : Nat) (op : Nat → Except ε α × List Event) :
    Except ε α × List Event :=
  retryGo op 0 (attempts - 1)

/-- A state-threading variant of the retry wrapper, used for the chunk
upload whose bytes.Buffer argument is mutable state shared by the
attempts. -/
def retryGoSt {σ ε α : Type} (op : σ → Nat → (Except ε α × σ) × List Event) (s : σ) (i : Nat) :
    Nat → (Except ε α × σ) × List Event
  | 0 => op s i
  | r + 1 =>
    match op s i with
    | ((Except.ok a, s2), tr) => ((Except.ok a, s2), tr)
    | ((Except.error _, s2), tr) =>
      let next := retryGoSt op s2 (i + 1) r
      (next.1, tr ++ next.2)

/-- A bytes.Buffer: the readable bytes it currently holds. -/
structure Buffer where
  data : List Nat
deriving Repr, DecidableEq

/-- uploadChunk (source lines 225-252): PUTs the buffer contents to the
signed URL with Content-Length equal to the current buffer length.
Sending the request reads the *bytes.Buffer to its end, so the attempt
returns the drained (empty) buffer; the buffer is not restored on
failure. -/
def uploadChunk (env : Env) (url : String) (buffer : Buffer) (attempt : Nat) :
    (Except String Unit × Buffer) × List Event :=
  ((env.chunkResp url buffer.data attempt, Buffer.mk []),
   [Event.chunkPut url buffer.data buffer.data.length])

/-- The mutable per-run state of uploadFile: the uploadKey field of the
job (written after the first batch), the file read cursor, and the number
of reads performed (used to address injected read errors). -/
structure JobState where
  uploadKey : String
  offset : Nat
  readCount : Nat
deriving Repr, DecidableEq

/-- Error annotation of uploadFile line 108. -/
def urlErrMsg (firstPart parts : Nat) (e : String) : String :=
  "Error getting signed URLs for parts " ++ toString firstPart ++ "-" ++
    toString parts ++ " :\n" ++ e

/-- Error annotation of uploadFile line 127. -/
def readErrMsg (e : String) : String :=
  "Error reading the file to upload:\n" ++ e

/-- Error annotation of uploadFile line 138. -/
def chunkErrMsg (url e : String) : String :=
  "Error uploading a chunk to URL:\n- " ++ url ++ "\n" ++ e

/-- Error annotation of uploadFile line 150. -/
def finalizeErrMsg (e : String) : String :=
  "Error completing the upload:\n" ++ e

/-- The inner loop of uploadFile (source lines 119-142): for each signed
URL, read one chunk of up to defaultSize bytes from the file cursor; a
read error that is not EOF aborts with the read annotation; a nonempty
chunk is uploaded under the retry wrapper (3 attempts), and an exhausted
chunk upload aborts with the chunk annotation; an empty read (EOF) skips
the upload and continues with the next URL. -/
def uploadUrlsLoop (env : Env) (content : List Nat) :
    List String → JobState → (Except String Unit × JobState) × List Event
  | [], st => ((Except.ok (), st), [])
  | url :: rest, st =>
    match env.readErr st.readCount with
    | some e => ((Except.error (readErrMsg e), st), [])
    | none =>
      let chunk := (content.drop st.offset).take defaultSize
      let st2 : JobState :=
        { st with offset := st.offset + chunk.length, readCount := st.readCount + 1 }
      if chunk.length > 0 then
        match retryGoSt (uploadChunk env url) (Buffer.mk chunk) 0 2 with
        | ((Except.ok _, _), tr) =>
          let next := uploadUrlsLoop env content rest st2
          (next.1, tr ++ next.2)
        | ((Except.error e, _), tr) => ((Except.error (chunkErrMsg url e), st2), tr)
      else
        uploadUrlsLoop env content rest st2

/-- The batch loop of uploadFile (source lines 99-145), peeling batches
from batch index i with r batches remaining: request the signed URLs for
(firstPart = i * maxParts + 1, parts = getParts (i * maxParts)) under the
retry wrapper, passing the uploadKey query parameter only when the stored
key is nonempty; capture the returned uploadKey when i = 0; then run the
inner chunk loop over the returned URLs. -/
def batchLoop (env : Env) (job : uploadJob) (content : List Nat) :
    Nat → Nat → JobState → Except String JobState × List Event
  | 0, _, st => (Except.ok st, [])
  | r + 1, i, st =>
    let firstPart := i * maxParts + 1
    let parts := job.getParts (i * maxParts)
    let ukParam := if st.uploadKey = "" then none else some st.uploadKey
    let urlOp := fun (attempt : Nat) =>
      (env.urlResp firstPart parts ukParam attempt,
       [Event.urlReq firstPart parts job.minutesExpiration ukParam])
    match retryDo 3 urlOp with
    | (Except.error e, tr) => (Except.error (urlErrMsg firstPart parts e), tr)
    | (Except.ok uploadUrls, tr) =>
      let st1 : JobState :=
        { st with uploadKey := if i = 0 then uploadUrls.uploadKey else st.uploadKey }
      match uploadUrlsLoop env content uploadUrls.urls st1 with
      | ((Except.error e, _), tr2) => (Except.error e, tr ++ tr2)
      | ((Except.ok _, st2), tr2) =>
        let next := batchLoop env job content r (i + 1) st2
        (next.1, tr ++ tr2 ++ next.2)

/-- uploadFile (source lines 90-156): run the batch loop over all
numberOfBatches batches starting from the job uploadKey (empty for a job
built by newUploadJob) and a file cursor at 0, then issue the finalize
request (source completeUpload, lines 257-309: JSON body uploadKey and
size = fileSize) under the retry wrapper, annotating an exhausted
finalize with the finalize annotation. -/
def uploadFile (env : Env) (job : uploadJob) (content : List Nat) :
    Except String UploadResult × List Event :=
  match batchLoop env job content job.numberOfBatches 0 (JobState.mk job.uploadKey 0 0) with
  | (Except.error e, tr) => (Except.error e, tr)
  | (Except.ok st, tr) =>
    let finOp := fun (attempt : Nat) =>
      (env.finalizeResp st.uploadKey job.fileSize attempt,
       [Event.finalizeReq st.uploadKey job.fileSize])
    match retryDo 3 finOp with
    | (Except.error e, tr2) => (Except.error (finalizeErrMsg e), tr ++ tr2)
    | (Except.ok result, tr2) => (Except.ok result, tr ++ tr2)

/-- An HTTP request description, for the request-construction claims. -/
structure UrlRequest where
  meth : String
  path : String
  query : List (String × String)
  headers : List (String × String)
deriving Repr, DecidableEq

/-- getSignedS3UploadPath (source lines 319-323). -/
def getSignedS3UploadPath (hostPath bucketAPIPath : String) (job : uploadJob) : String :=
  hostPath ++ bucketAPIPath ++ "/" ++ job.bucketKey ++ "/objects/" ++ job.objectKey ++
    "/" ++ signedS3UploadEndpoint

/-- The request built by getSignedUploadUrls (source lines 188-204):
GET on the signeds3upload path, Authorization Bearer header, and query
parameters uploadKey (only when the stored key is nonempty), firstPart,
parts, minutesExpiration; strconv.Itoa on a nonnegative int is toString
on Nat. -/
def getSignedUploadUrlsRequest (hostPath bucketAPIPath : String) (job : uploadJob)
    (accessToken : String) (firstPart parts : Nat) : UrlRequest :=
  { meth := "GET"
    path := getSignedS3UploadPath hostPath bucketAPIPath job
    query :=
      (if job.uploadKey = "" then [] else [("uploadKey", job.uploadKey)]) ++
        [("firstPart", toString firstPart), ("parts", toString parts),
         ("minutesExpiration", toString job.minutesExpiration)]
    headers := [("Authorization", "Bearer " ++ accessToken)] }

/-- Response of the signeds3download endpoint (source struct
signedDownloadUrl; Size is a Go int, hence Int). -/
structure signedDownloadUrl where
  status : String
  url : String
  size : Int
  sha1 : String
deriving Repr, DecidableEq

/-- downloadObjectUsingSignedUrl (source lines 180-211 of the object
source file): GET the signed URL; on a non-200 status return no bytes and
the bracketed status error; on 200 read the body and, when the received
byte count differs from the size declared in the signed-download
metadata, return the bytes together with the size-mismatch error;
otherwise return the bytes with no error. The Go function returns the
pair (result, err); the pair is kept to mirror that. -/
def downloadObjectUsingSignedUrl (s : signedDownloadUrl) (respStatus : Nat)
    (respBody : List Nat) : List Nat × Option String :=
  if respStatus ≠ 200 then
    ([], some ("[" ++ toString respStatus ++ "] "))
  else
    if (respBody.length : Int) ≠ s.size then
      (respBody, some ("the file size doesn't match, expected " ++ toString s.size ++
        ", but received " ++ toString respBody.length))
    else
      (respBody, none)

/-- Projection of a trace event to the (firstPart, parts) data of a
signed-URL request. -/
def urlProj : Event → Option (Nat × Nat)
  | Event.urlReq fp p _ _ => some (fp, p)
  | _ => none

/-- Projection of a trace event to the (url, body) data of a chunk PUT. -/
def putProj : Event → Option (String × List Nat)
  | Event.chunkPut u b _ => some (u, b)
  | _ => none

/-- The canonical signed URL of a 1-based part number. -/
def partUrl (k : Nat) : String := "part-" ++ toString k

/-- The protocol-correct URL list for a signed-URL request: one URL per
part, in ascending part order starting at firstPart. -/
def partUrls (firstPart parts : Nat) : List String :=
  (List.range' firstPart parts).map partUrl

/-- An all-success environment: every signed-URL request succeeds with
uploadKey K and the URLs given by U, every chunk PUT and the finalize
succeed, and no read error occurs. -/
def okEnv (K : String) (U : Nat → Nat → List String) (res : UploadResult) : Env :=
  { urlResp := fun fp p _ _ => Except.ok (signedUploadUrls.mk K (U fp p))
    chunkResp := fun _ _ _ => Except.ok ()
    finalizeResp := fun _ _ _ => Except.ok res
    readErr := fun _ => none }

/-- The bytes of zero-based chunk k of the file: the slice
[k * defaultSize, (k+1) * defaultSize) (possibly shorter or empty at the
end of the file). -/
def chunkAt (content : List Nat) (k : Nat) : List Nat :=
  (content.drop (k * defaultSize)).take defaultSize

/-- The chunk PUT a run performs for zero-based part k, when that chunk
is nonempty. -/
def expectedPut (content : List Nat) (k : Nat) : Option Event :=
  if (chunkAt content k).length = 0 then none
  else some (Event.chunkPut (partUrl (k + 1)) (chunkAt content k) (chunkAt content k).length)

/-- The chunk PUTs of one batch covering zero-based parts q..q+p-1. -/
def expectedPuts (content : List Nat) (q p : Nat) : List Event :=
  (List.range' q p).filterMap (expectedPut content)

/-- The (url, body) pair a run PUTs for zero-based part k, when that
chunk is nonempty. -/
def expectedPair (content : List Nat) (k : Nat) : Option (String × List Nat) :=
  if (chunkAt content k).length = 0 then none
  else some (partUrl (k + 1), chunkAt content k)

/-- An uploadFile error is annotated with the stage that failed: the
signed-URL request for a part range, the chunk upload to a URL, the file
read, or the finalize call. -/
def stageAnnotated (e : String) : Prop :=
  (∃ fp p rest, e = urlErrMsg fp p rest) ∨
  (∃ url rest, e = chunkErrMsg url rest) ∨
  (∃ rest, e = readErrMsg rest) ∨
  (∃ rest, e = finalizeErrMsg rest)

theorem retryGo_zero {ε α : Type} (op : Nat → Except ε α × List Event) (i : Nat) :
    retryGo op i 0 = op i := rfl

theorem retryGo_succ_ok {ε α : Type} {op : Nat → Except ε α × List Event} {i : Nat}
    {a : α} {tr : List Event} (h : op i = (Except.ok a, tr)) (r : Nat) :
    retryGo op i (r + 1) = (Except.ok a, tr) := by
  simp only [retryGo]
  rw [h]

theorem retryGo_succ_err {ε α : Type} {op : Nat → Except ε α × List Event} {i : Nat}
    {e : ε} {tr : List Event} (h : op i = (Except.error e, tr)) (r : Nat) :
    retryGo op i (r + 1) = ((retryGo op (i + 1) r).1, tr ++ (retryGo op (i + 1) r).2) := by
  simp only [retryGo]
  rw [h]

theorem retryDo_first_ok {ε α : Type} {op : Nat → Except ε α × List Event}
    {a : α} {tr : List Event} (h : op 0 = (Except.ok a, tr)) :
    retryDo 3 op = (Except.ok a, tr) := by
  show retryGo op 0 2 = _
  rw [show (2 : Nat) = 1 + 1 from rfl, retryGo_succ_ok h]

theorem retryGo_ok_exists {ε α : Type} {op : Nat → Except ε α × List Event} {a : α} :
    ∀ r i, (retryGo op i r).1 = Except.ok a → ∃ j, (op j).1 = Except.ok a := by
  intro r
  induction r with
  | zero => intro i h; exact ⟨i, h⟩
  | succ r ih =>
    intro i h
    rcases hop : op i with ⟨res, tr⟩
    cases res with
    | ok b => rw [retryGo_succ_ok hop] at h; exact ⟨i, by rw [hop]; exact h⟩
    | error e => rw [retryGo_succ_err hop] at h; exact ih (i + 1) h

theorem retryGo_trace_mem {ε α : Type} {op : Nat → Except ε α × List Event} :
    ∀ r i ev, ev ∈ (retryGo op i r).2 → ∃ j, ev ∈ (op j).2 := by
  intro r
  induction r with
  | zero => intro i ev h; exact ⟨i, h⟩
  | succ r ih =>
    intro i ev h
    rcases hop : op i with ⟨res, tr⟩
    cases res with
    | ok b => rw [retryGo_succ_ok hop] at h; exact ⟨i, by rw [hop]; exact h⟩
    | error e =>
      rw [retryGo_succ_err hop] at h
      rcases List.mem_append.mp h with h1 | h2
      · exact ⟨i, by rw [hop]; exact h1⟩
      · exact ih (i + 1) ev h2

/-- C2: newUploadJob computes totalParts = floor(fileSize / chunkSize) + 1
with chunkSize = 100 MiB, which is at least 1 even for an empty file, and
numberOfBatches = floor(totalParts / 25) + 1; fileSize = 0 gives
totalParts = 1 and fileSize = 250 MiB gives totalParts = 3. -/
theorem newUploadJob_partitioning (bk objectName fileName : String) (fileSize : Nat) :
    (newUploadJob bk objectName fileName fileSize).totalParts
      = fileSize / defaultSize + 1 ∧
    defaultSize = 100 * megaByte ∧
    1 ≤ (newUploadJob bk objectName fileName fileSize).totalParts ∧
    (newUploadJob bk objectName fileName fileSize).numberOfBatches
      = (newUploadJob bk objectName fileName fileSize).totalParts / maxParts + 1 ∧
    maxParts = 25 ∧
    (newUploadJob bk objectName fileName 0).totalParts = 1 ∧
    (newUploadJob bk objectName fileName (250 * megaByte)).totalParts = 3 := by
  refine ⟨rfl, rfl, Nat.le_add_left 1 _, rfl, rfl, ?_, ?_⟩
  · show 0 / defaultSize + 1 = 1
    decide
  · show 250 * megaByte / defaultSize + 1 = 3
    decide

/-- C6: the retry wrapper used for every network operation has a fixed
budget of 3 attempts: an operation that fails twice and succeeds on the
third attempt succeeds end-to-end with exactly 3 invocations recorded in
the trace, and one that fails on all 3 attempts surfaces the last error
with exactly 3 invocations and no 4th attempt (the conclusion holds for
every behaviour of the operation beyond attempt 2). -/
theorem retryDo_retry_bound {α : Type} (op1 op2 : Nat → Except String α × List Event)
    (a : α) (e0 e1 f0 f1 f2 : String) (ev0 ev1 ev2 fv0 fv1 fv2 : Event)
    (h0 : op1 0 = (Except.error e0, [ev0])) (h1 : op1 1 = (Except.error e1, [ev1]))
    (h2 : op1 2 = (Except.ok a, [ev2]))
    (g0 : op2 0 = (Except.error f0, [fv0])) (g1 : op2 1 = (Except.error f1, [fv1]))
    (g2 : op2 2 = (Except.error f2, [fv2])) :
    retryDo 3 op1 = (Except.ok a, [ev0, ev1, ev2]) ∧
    retryDo 3 op2 = (Except.error f2, [fv0, fv1, fv2]) := by
  constructor
  · show retryGo op1 0 2 = _
    rw [show (2 : Nat) = 1 + 1 from rfl, retryGo_succ_err h0,
      show (1 : Nat) = 0 + 1 from rfl, retryGo_succ_err h1, retryGo_zero, h2]
    rfl
  · show retryGo op2 0 2 = _
    rw [show (2 : Nat) = 1 + 1 from rfl, retryGo_succ_err g0,
      show (1 : Nat) = 0 + 1 from rfl, retryGo_succ_err g1, retryGo_zero, g2]
    rfl

theorem retryDo_retry_bound_witness :
    retryDo 3 (fun i => if i = 2 then (Except.ok (7 : Nat), [Event.finalizeReq "k" 2])
        else (Except.error "fail", [Event.finalizeReq "k" i]))
      = (Except.ok (7 : Nat), [Event.finalizeReq "k" 0, Event.finalizeReq "k" 1,
          Event.finalizeReq "k" 2]) ∧
    retryDo 3 (fun i => ((Except.error (toString i) : Except String Nat), [Event.finalizeReq "w" i]))
      = (Except.error "2", [Event.finalizeReq "w" 0, Event.finalizeReq "w" 1,
          Event.finalizeReq "w" 2]) := by
  have h := retryDo_retry_bound
    (fun i => if i = 2 then (Except.ok (7 : Nat), [Event.finalizeReq "k" 2])
        else (Except.error "fail", [Event.finalizeReq "k" i]))
    (fun i => ((Except.error (toString i) : Except String Nat), [Event.finalizeReq "w" i]))
    (7 : Nat) "fail" "fail" "0" "1" "2"
    (Event.finalizeReq "k" 0) (Event.finalizeReq "k" 1) (Event.finalizeReq "k" 2)
    (Event.finalizeReq "w" 0) (Event.finalizeReq "w" 1) (Event.finalizeReq "w" 2)
    rfl rfl rfl rfl rfl rfl
  exact h

/-- C7: every signed-URL request built by getSignedUploadUrls carries the
firstPart, parts and minutesExpiration query parameters and the
Authorization Bearer header, and carries an uploadKey query parameter if
and only if the stored session token is nonempty (and then the parameter
value is exactly that token); a job built by newUploadJob starts with an
empty token, so the first batch request omits uploadKey. -/
theorem getSignedUploadUrlsRequest_params (hostPath bucketAPIPath : String)
    (job : uploadJob) (tok : String) (fp p : Nat)
    (bk objectName fileName : String) (fs : Nat) :
    ("firstPart", toString fp)
        ∈ (getSignedUploadUrlsRequest hostPath bucketAPIPath job tok fp p).query ∧
    ("parts", toString p)
        ∈ (getSignedUploadUrlsRequest hostPath bucketAPIPath job tok fp p).query ∧
    ("minutesExpiration", toString job.minutesExpiration)
        ∈ (getSignedUploadUrlsRequest hostPath bucketAPIPath job tok fp p).query ∧
    ("Authorization", "Bearer " ++ tok)
        ∈ (getSignedUploadUrlsRequest hostPath bucketAPIPath job tok fp p).headers ∧
    ((∃ v, ("uploadKey", v)
        ∈ (getSignedUploadUrlsRequest hostPath bucketAPIPath job tok fp p).query)
      ↔ job.uploadKey ≠ "") ∧
    (∀ v, ("uploadKey", v)
        ∈ (getSignedUploadUrlsRequest hostPath bucketAPIPath job tok fp p).query
      → v = job.uploadKey) ∧
    (newUploadJob bk objectName fileName fs).uploadKey = "" := by
  by_cases h : job.uploadKey = "" <;>
    simp [getSignedUploadUrlsRequest, h, newUploadJob]

/-- C8: when the 200 response to a signed-URL download has a byte count
different from the size declared in the signed-download metadata,
downloadObjectUsingSignedUrl returns a non-nil size-mismatch error rather
than treating the download as a success. -/
theorem downloadObjectUsingSignedUrl_size_mismatch (s : signedDownloadUrl)
    (respBody : List Nat) (h : (respBody.length : Int) ≠ s.size) :
    downloadObjectUsingSignedUrl s 200 respBody
      = (respBody, some ("the file size doesn\x27t match, expected " ++ toString s.size ++
          ", but received " ++ toString respBody.length)) := by
  simp [downloadObjectUsingSignedUrl, h]

theorem downloadObjectUsingSignedUrl_size_mismatch_witness :
    (downloadObjectUsingSignedUrl (signedDownloadUrl.mk "complete" "u" 5 "x") 200 []).2.isSome
      = true := by
  rw [downloadObjectUsingSignedUrl_size_mismatch (signedDownloadUrl.mk "complete" "u" 5 "x")
    [] (by decide)]
  rfl

/-- C10: uploadChunk consumes its buffer when sending the request (every
attempt returns a drained buffer), and the buffer is not restored on
failure: when the first attempt fails, the second attempt of the retried
chunk upload sends a zero-length payload with Content-Length 0 instead of
the original chunk bytes. -/
theorem uploadChunk_drains_buffer (env : Env) (url : String) (body : List Nat) (e : String)
    (h : env.chunkResp url body 0 = Except.error e) :
    (∀ buf attempt, (uploadChunk env url buf attempt).1.2 = Buffer.mk []) ∧
    ((retryGoSt (uploadChunk env url) (Buffer.mk body) 0 2).2).take 2
      = [Event.chunkPut url body body.length, Event.chunkPut url [] 0] := by
  constructor
  · intro buf attempt
    rfl
  · rw [show (2 : Nat) = 1 + 1 from rfl]
    simp only [retryGoSt, uploadChunk]
    rw [h]
    rcases hc : env.chunkResp url [] 1 with e2 | u
    · simp [retryGoSt, uploadChunk, hc]
    · simp [retryGoSt, uploadChunk, hc]

theorem uploadChunk_drains_buffer_witness :
    ((retryGoSt
        (uploadChunk
          (Env.mk (fun _ _ _ _ => Except.error "n") (fun _ _ _ => Except.error "boom")
            (fun _ _ _ => Except.error "n") (fun _ => none)) "u")
        (Buffer.mk [1, 2, 3]) 0 2).2).take 2
      = [Event.chunkPut "u" [1, 2, 3] 3, Event.chunkPut "u" [] 0] := by
  exact (uploadChunk_drains_buffer
    (Env.mk (fun _ _ _ _ => Except.error "n") (fun _ _ _ => Except.error "boom")
      (fun _ _ _ => Except.error "n") (fun _ => none)) "u" [1, 2, 3] "boom" rfl).2

theorem uploadUrlsLoop_error_shape (env : Env) (content : List Nat) :
    ∀ urls st e st2 tr, uploadUrlsLoop env content urls st = ((Except.error e, st2), tr) →
      (∃ url rest, e = chunkErrMsg url rest) ∨ (∃ rest, e = readErrMsg rest) := by
  intro urls
  induction urls with
  | nil =>
    intro st e st2 tr h
    simp [uploadUrlsLoop] at h
  | cons url rest ih =>
    intro st e st2 tr h
    rw [uploadUrlsLoop] at h
    rcases hre : env.readErr st.readCount with _ | e1
    · rw [hre] at h
      simp only at h
      split at h
      · split at h
        · rename_i heq
          rcases hull : uploadUrlsLoop env content rest _ with ⟨⟨res, stx⟩, trx⟩
          rw [hull] at h
          simp only [Prod.mk.injEq] at h
          rcases h with ⟨⟨h1, h2⟩, h3⟩
          rcases res with e2 | u
          · exact ih _ _ _ _ (by rw [hull, h1])
          · exact absurd h1 (by simp)
        · simp only [Prod.mk.injEq, Except.error.injEq] at h
          exact Or.inl ⟨url, _, h.1.1.symm⟩
      · exact ih _ _ _ _ h
    · rw [hre] at h
      simp only [Prod.mk.injEq, Except.error.injEq] at h
      exact Or.inr ⟨e1, h.1.1.symm⟩

theorem batchLoop_error_shape (env : Env) (job : uploadJob) (content : List Nat) :
    ∀ r i st e tr, batchLoop env job content r i st = (Except.error e, tr) →
      (∃ fp p rest, e = urlErrMsg fp p rest) ∨
      (∃ url rest, e = chunkErrMsg url rest) ∨ (∃ rest, e = readErrMsg rest) := by
  intro r
  induction r with
  | zero =>
    intro i st e tr h
    simp [batchLoop] at h
  | succ r ih =>
    intro i st e tr h
    rw [batchLoop] at h
    simp only at h
    split at h
    · simp only [Prod.mk.injEq, Except.error.injEq] at h
      exact Or.inl ⟨_, _, _, h.1.symm⟩
    · split at h
      · rename_i heq
        simp only [Prod.mk.injEq, Except.error.injEq] at h
        rcases uploadUrlsLoop_error_shape env content _ _ _ _ _ heq with hc | hr
        · exact Or.inr (Or.inl (h.1 ▸ hc))
        · exact Or.inr (Or.inr (h.1 ▸ hr))
      · rcases hbl : batchLoop env job content r (i + 1) _ with ⟨res, trx⟩
        rw [hbl] at h
        simp only [Prod.mk.injEq] at h
        rcases res with e2 | stz
        · exact ih _ _ _ _ (by rw [hbl, h.1])
        · exact absurd h.1 (by simp)

/-- C1: whenever uploadFile returns an error (a signed-URL request whose
retries are exhausted, a chunk upload whose retries are exhausted, a
non-EOF file read error, or an exhausted finalize), the job is aborted
and the returned error is non-nil and annotated with the stage that
failed: the URL request for the given part range, the chunk upload to a
URL, the file read, or the finalize call. -/
theorem uploadFile_error_stage_annotated (env : Env) (job : uploadJob) (content : List Nat)
    (e : String) (tr : List Event) (h : uploadFile env job content = (Except.error e, tr)) :
    stageAnnotated e := by
  rw [uploadFile] at h
  split at h
  · rename_i heq
    simp only [Prod.mk.injEq, Except.error.injEq] at h
    rcases batchLoop_error_shape env job content _ _ _ _ _ heq with hu | hc | hr
    · exact Or.inl (h.1 ▸ hu)
    · exact Or.inr (Or.inl (h.1 ▸ hc))
    · exact Or.inr (Or.inr (Or.inl (h.1 ▸ hr)))
  · simp only at h
    split at h
    · simp only [Prod.mk.injEq, Except.error.injEq] at h
      exact Or.inr (Or.inr (Or.inr ⟨_, h.1.symm⟩))
    · simp only [Prod.mk.injEq] at h
      exact absurd h.1 (by simp)

theorem uploadFile_error_stage_annotated_witness :
    stageAnnotated (urlErrMsg 1 1 "boom") := by
  exact uploadFile_error_stage_annotated
    (Env.mk (fun _ _ _ _ => Except.error "boom") (fun _ _ _ => Except.ok ())
      (fun _ _ _ => Except.error "x") (fun _ => none))
    (newUploadJob "b" "o" "f" 0) []
    (urlErrMsg 1 1 "boom")
    [Event.urlReq 1 1 60 none, Event.urlReq 1 1 60 none, Event.urlReq 1 1 60 none]
    rfl


theorem retryGoSt_zero {σ ε α : Type} (op : σ → Nat → (Except ε α × σ) × List Event)
    (s : σ) (i : Nat) : retryGoSt op s i 0 = op s i := rfl

theorem retryGoSt_succ_ok {σ ε α : Type} {op : σ → Nat → (Except ε α × σ) × List Event}
    {s s2 : σ} {i : Nat} {a : α} {tr : List Event}
    (h : op s i = ((Except.ok a, s2), tr)) (r : Nat) :
    retryGoSt op s i (r + 1) = ((Except.ok a, s2), tr) := by
  simp only [retryGoSt]
  rw [h]

theorem okEnv_readErr (K : String) (U : Nat → Nat → List String) (res : UploadResult)
    (k : Nat) : (okEnv K U res).readErr k = none := rfl

theorem retryGoSt_uploadChunk_okEnv (K : String) (U : Nat → Nat → List String)
    (res : UploadResult) (url : String) (buf : Buffer) :
    retryGoSt (uploadChunk (okEnv K U res) url) buf 0 2
      = ((Except.ok (), Buffer.mk []), [Event.chunkPut url buf.data buf.data.length]) := by
  rw [show (2 : Nat) = 1 + 1 from rfl, retryGoSt_succ_ok rfl]

theorem uploadUrlsLoop_nil (env : Env) (content : List Nat) (st : JobState) :
    uploadUrlsLoop env content [] st = ((Except.ok (), st), []) := rfl

theorem uploadUrlsLoop_cons_ok (env : Env) (content : List Nat) (url : String)
    (rest : List String) (st : JobState) (b2 : Buffer) (tr : List Event)
    (hre : env.readErr st.readCount = none)
    (hpos : 0 < ((content.drop st.offset).take defaultSize).length)
    (hretry : retryGoSt (uploadChunk env url)
        (Buffer.mk ((content.drop st.offset).take defaultSize)) 0 2
      = ((Except.ok (), b2), tr)) :
    uploadUrlsLoop env content (url :: rest) st =
      ((uploadUrlsLoop env content rest
          { st with offset := st.offset + ((content.drop st.offset).take defaultSize).length,
                    readCount := st.readCount + 1 }).1,
       tr ++ (uploadUrlsLoop env content rest
          { st with offset := st.offset + ((content.drop st.offset).take defaultSize).length,
                    readCount := st.readCount + 1 }).2) := by
  rw [uploadUrlsLoop, hre]
  simp only
  rw [if_pos hpos, hretry]

theorem uploadUrlsLoop_cons_eof (env : Env) (content : List Nat) (url : String)
    (rest : List String) (st : JobState)
    (hre : env.readErr st.readCount = none)
    (hz : ((content.drop st.offset).take defaultSize).length = 0) :
    uploadUrlsLoop env content (url :: rest) st =
      uploadUrlsLoop env content rest
        { st with offset := st.offset + ((content.drop st.offset).take defaultSize).length,
                  readCount := st.readCount + 1 } := by
  rw [uploadUrlsLoop, hre]
  simp only
  rw [if_neg (by omega)]

theorem chunk_at_offset (content : List Nat) (q : Nat) :
    (content.drop (min (q * defaultSize) content.length)).take defaultSize
      = chunkAt content q := by
  rcases le_total (q * defaultSize) content.length with hle | hge
  · rw [min_eq_left hle]; rfl
  · rw [min_eq_right hge, List.drop_length, chunkAt, List.drop_eq_nil_of_le hge]

theorem chunkAt_length (content : List Nat) (q : Nat) :
    (chunkAt content q).length = min defaultSize (content.length - q * defaultSize) := by
  simp [chunkAt]

theorem offset_advance (q len : Nat) :
    min (q * defaultSize) len + min defaultSize (len - q * defaultSize)
      = min ((q + 1) * defaultSize) len := by
  have h1 : (q + 1) * defaultSize = q * defaultSize + defaultSize := by ring
  rw [h1]
  omega

theorem expectedPuts_zero (content : List Nat) (q : Nat) :
    expectedPuts content q 0 = [] := rfl

theorem expectedPuts_succ_pos (content : List Nat) (q p : Nat)
    (h : 0 < (chunkAt content q).length) :
    expectedPuts content q (p + 1)
      = Event.chunkPut (partUrl (q + 1)) (chunkAt content q) (chunkAt content q).length
          :: expectedPuts content (q + 1) p := by
  rw [expectedPuts, List.range'_succ, List.filterMap_cons,
    show expectedPut content q = some (Event.chunkPut (partUrl (q + 1)) (chunkAt content q)
      (chunkAt content q).length) from by rw [expectedPut, if_neg (by omega)]]
  rfl

theorem expectedPuts_succ_zero (content : List Nat) (q p : Nat)
    (h : (chunkAt content q).length = 0) :
    expectedPuts content q (p + 1) = expectedPuts content (q + 1) p := by
  rw [expectedPuts, List.range'_succ, List.filterMap_cons,
    show expectedPut content q = none from by rw [expectedPut, if_pos h]]
  rfl

theorem partUrls_zero (fp : Nat) : partUrls fp 0 = [] := rfl

theorem partUrls_succ (fp p : Nat) :
    partUrls fp (p + 1) = partUrl fp :: partUrls (fp + 1) p := by
  rw [partUrls, List.range'_succ]
  rfl

theorem uploadUrlsLoop_okEnv_chunks (K : String) (U : Nat → Nat → List String)
    (res : UploadResult) (content : List Nat) :
    ∀ p q st, st.offset = min (q * defaultSize) content.length →
      uploadUrlsLoop (okEnv K U res) content (partUrls (q + 1) p) st =
        ((Except.ok (), JobState.mk st.uploadKey
            (min ((q + p) * defaultSize) content.length) (st.readCount + p)),
         expectedPuts content q p) := by
  intro p
  induction p with
  | zero =>
    intro q st hoff
    rcases st with ⟨k, o, rc⟩
    simp only at hoff
    subst hoff
    rw [partUrls_zero, uploadUrlsLoop_nil, expectedPuts_zero]
    simp
  | succ p ih =>
    intro q st hoff
    rcases st with ⟨k, o, rc⟩
    simp only at hoff
    subst hoff
    rw [partUrls_succ]
    by_cases hpos : 0 < (chunkAt content q).length
    · rw [uploadUrlsLoop_cons_ok (okEnv K U res) content (partUrl (q + 1))
        (partUrls (q + 1 + 1) p) _ (Buffer.mk []) _ (okEnv_readErr K U res _)
        (by simp only; rw [chunk_at_offset]; exact hpos)
        (by simp only; rw [chunk_at_offset]; exact retryGoSt_uploadChunk_okEnv K U res _ _)]
      simp only
      rw [chunk_at_offset]
      rw [ih (q + 1) _ (by simp only; rw [chunkAt_length, offset_advance])]
      simp only
      rw [expectedPuts_succ_pos content q p hpos]
      rw [show q + 1 + p = q + (p + 1) from by ring, show rc + 1 + p = rc + (p + 1) from by ring]
      rfl
    · have hz : (chunkAt content q).length = 0 := by omega
      rw [uploadUrlsLoop_cons_eof (okEnv K U res) content (partUrl (q + 1))
          (partUrls (q + 1 + 1) p) _ (okEnv_readErr K U res _)
          (by simp only; rw [chunk_at_offset]; exact hz)]
      simp only
      rw [chunk_at_offset]
      have hoff2 : min (q * defaultSize) content.length + (chunkAt content q).length
          = min ((q + 1) * defaultSize) content.length := by
        rw [chunkAt_length, offset_advance]
      rw [ih (q + 1) _ (by simp only; rw [hoff2])]
      simp only
      rw [expectedPuts_succ_zero content q p hz]
      rw [show q + 1 + p = q + (p + 1) from by ring, show rc + 1 + p = rc + (p + 1) from by ring]

theorem maxParts_eq : maxParts = 25 := rfl

theorem defaultSize_eq : defaultSize = 104857600 := rfl

theorem offset_step (job : uploadJob) (len i : Nat)
    (htp : job.totalParts = len / defaultSize + 1) :
    min ((i * maxParts + job.getParts (i * maxParts)) * defaultSize) len
      = min ((i + 1) * maxParts * defaultSize) len := by
  rw [uploadJob.getParts]
  rw [maxParts_eq] at *
  rw [defaultSize_eq] at *
  split <;> omega

theorem getParts_eq_min (job : uploadJob) (pc : Nat) :
    job.getParts pc = min maxParts (job.totalParts - pc) := by
  rw [uploadJob.getParts]
  split <;> omega

theorem putProj_expectedPuts (content : List Nat) (q p : Nat) :
    (expectedPuts content q p).filterMap putProj
      = (List.range' q p).filterMap (expectedPair content) := by
  rw [expectedPuts, List.filterMap_filterMap]
  congr 1
  funext k
  by_cases h : (chunkAt content k).length = 0
  · rw [expectedPut, if_pos h, expectedPair, if_pos h]
    rfl
  · rw [expectedPut, if_neg h, expectedPair, if_neg h]
    rfl

theorem urlProj_expectedPuts (content : List Nat) (q p : Nat) :
    (expectedPuts content q p).filterMap urlProj = [] := by
  rw [expectedPuts, List.filterMap_filterMap]
  apply List.filterMap_eq_nil_iff.mpr
  intro k hk
  by_cases h : (chunkAt content k).length = 0
  · rw [expectedPut, if_pos h]
    rfl
  · rw [expectedPut, if_neg h]
    rfl

theorem retryDo_urlOp_okEnv (K : String) (U : Nat → Nat → List String) (res : UploadResult)
    (fp p me : Nat) (ukp : Option String) :
    retryDo 3 (fun attempt => ((okEnv K U res).urlResp fp p ukp attempt,
        [Event.urlReq fp p me ukp]))
      = (Except.ok (signedUploadUrls.mk K (U fp p)), [Event.urlReq fp p me ukp]) :=
  retryDo_first_ok rfl

theorem uploadUrlsLoop_okEnv_ok (K : String) (U : Nat → Nat → List String)
    (res : UploadResult) (content : List Nat) :
    ∀ urls st, ∃ st2 tr,
      uploadUrlsLoop (okEnv K U res) content urls st = ((Except.ok (), st2), tr) ∧
      tr.filterMap urlProj = [] := by
  intro urls
  induction urls with
  | nil =>
    intro st
    exact ⟨st, [], rfl, rfl⟩
  | cons url rest ih =>
    intro st
    rcases ih { st with offset := st.offset + ((content.drop st.offset).take defaultSize).length, readCount := st.readCount + 1 } with ⟨st2, tr, heq, hfm⟩
    by_cases hpos : 0 < ((content.drop st.offset).take defaultSize).length
    · have hbig : uploadUrlsLoop (okEnv K U res) content (url :: rest) st
          = ((Except.ok (), st2),
             [Event.chunkPut url ((content.drop st.offset).take defaultSize)
               ((content.drop st.offset).take defaultSize).length] ++ tr) := by
        rw [uploadUrlsLoop_cons_ok (okEnv K U res) content url rest st (Buffer.mk []) _
          (okEnv_readErr K U res _) hpos (retryGoSt_uploadChunk_okEnv K U res url _), heq]
      refine ⟨st2, _, hbig, ?_⟩
      rw [List.filterMap_append, hfm]
      rfl
    · have hbig : uploadUrlsLoop (okEnv K U res) content (url :: rest) st
          = ((Except.ok (), st2), tr) := by
        rw [uploadUrlsLoop_cons_eof (okEnv K U res) content url rest st
          (okEnv_readErr K U res _) (by omega), heq]
      exact ⟨st2, tr, hbig, hfm⟩

theorem batchLoop_okEnv_urlProj (K : String) (U : Nat → Nat → List String)
    (res : UploadResult) (job : uploadJob) (content : List Nat) :
    ∀ r i st, ∃ st2 tr,
      batchLoop (okEnv K U res) job content r i st = (Except.ok st2, tr) ∧
      tr.filterMap urlProj
        = (List.range' i r).map (fun k => (k * maxParts + 1, job.getParts (k * maxParts))) := by
  intro r
  induction r with
  | zero =>
    intro i st
    exact ⟨st, [], rfl, rfl⟩
  | succ r ih =>
    intro i st
    rcases uploadUrlsLoop_okEnv_ok K U res content
      (U (i * maxParts + 1) (job.getParts (i * maxParts)))
      { st with uploadKey := if i = 0 then K else st.uploadKey } with ⟨st2, tri, heqi, hfmi⟩
    rcases ih (i + 1) st2 with ⟨st3, trR, heqR, hfmR⟩
    have hbl : batchLoop (okEnv K U res) job content (r + 1) i st
        = (Except.ok st3,
           [Event.urlReq (i * maxParts + 1) (job.getParts (i * maxParts)) job.minutesExpiration
             (if st.uploadKey = "" then none else some st.uploadKey)] ++ (tri ++ trR)) := by
      rw [batchLoop, retryDo_urlOp_okEnv K U res _ _ _ _]
      simp only
      rw [heqi]
      simp only
      rw [heqR]
      rfl
    refine ⟨st3, _, hbl, ?_⟩
    show (Event.urlReq _ _ _ _ :: (tri ++ trR)).filterMap urlProj = _
    rw [List.filterMap_cons, List.filterMap_append, hfmi, hfmR]
    rw [List.range'_succ, List.map_cons]
    rfl

theorem batchLoop_okEnv_putProj (K : String) (res : UploadResult) (job : uploadJob)
    (content : List Nat) (htp : job.totalParts = content.length / defaultSize + 1) :
    ∀ r i st, st.offset = min (i * maxParts * defaultSize) content.length →
      ∃ st2 tr,
        batchLoop (okEnv K partUrls res) job content r i st = (Except.ok st2, tr) ∧
        tr.filterMap putProj
          = (List.range' (i * maxParts)
              (min (maxParts * r) (job.totalParts - maxParts * i))).filterMap
              (expectedPair content) ∧
        st2.offset = min ((i + r) * maxParts * defaultSize) content.length := by
  intro r
  induction r with
  | zero =>
    intro i st hoff
    refine ⟨st, [], rfl, ?_, by rw [Nat.add_zero]; exact hoff⟩
    rw [show min (maxParts * 0) (job.totalParts - maxParts * i) = 0 from by omega]
    rfl
  | succ r ih =>
    intro i st hoff
    have hinner := uploadUrlsLoop_okEnv_chunks K partUrls res content
      (job.getParts (i * maxParts)) (i * maxParts)
      { st with uploadKey := if i = 0 then K else st.uploadKey } (by simp only; exact hoff)
    have hoff2 : (JobState.mk (if i = 0 then K else st.uploadKey)
        (min ((i * maxParts + job.getParts (i * maxParts)) * defaultSize) content.length)
        (st.readCount + job.getParts (i * maxParts))).offset
        = min ((i + 1) * maxParts * defaultSize) content.length := by
      simp only
      exact offset_step job content.length i htp
    rcases ih (i + 1) _ hoff2 with ⟨st3, trR, heqR, hfmR, hoffR⟩
    have hbl : batchLoop (okEnv K partUrls res) job content (r + 1) i st
        = (Except.ok st3,
           [Event.urlReq (i * maxParts + 1) (job.getParts (i * maxParts)) job.minutesExpiration
             (if st.uploadKey = "" then none else some st.uploadKey)]
             ++ (expectedPuts content (i * maxParts) (job.getParts (i * maxParts)) ++ trR)) := by
      rw [batchLoop, retryDo_urlOp_okEnv K partUrls res _ _ _ _]
      simp only
      rw [hinner]
      simp only
      rw [heqR]
      rfl
    refine ⟨st3, _, hbl, ?_, by rw [show i + 1 + r = i + (r + 1) from by ring] at hoffR; exact hoffR⟩
    show (Event.urlReq _ _ _ _ :: (expectedPuts content (i * maxParts)
      (job.getParts (i * maxParts)) ++ trR)).filterMap putProj = _
    rw [List.filterMap_cons]
    show List.filterMap putProj (expectedPuts content (i * maxParts)
      (job.getParts (i * maxParts)) ++ trR) = _
    rw [List.filterMap_append, putProj_expectedPuts, hfmR]
    rw [uploadJob.getParts]
    rw [maxParts_eq] at *
    split
    · rename_i hlt
      rw [show min (25 * r) (job.totalParts - 25 * (i + 1)) = 0 from by omega]
      rw [show min (25 * (r + 1)) (job.totalParts - 25 * i) = job.totalParts - i * 25 from by omega]
      simp
    · rename_i hge
      rw [← List.filterMap_append]
      rw [show (i + 1) * 25 = i * 25 + 1 * 25 from by ring]
      rw [List.range'_append (i * 25) 25 (min (25 * r) (job.totalParts - 25 * (i + 1))) 1]
      rw [show min (25 * (r + 1)) (job.totalParts - 25 * i)
        = min (25 * r) (job.totalParts - 25 * (i + 1)) + 25 from by omega]

theorem retryDo_finOp_okEnv (K : String) (U : Nat → Nat → List String) (res : UploadResult)
    (uk : String) (fs : Nat) :
    retryDo 3 (fun attempt => ((okEnv K U res).finalizeResp uk fs attempt,
        [Event.finalizeReq uk fs]))
      = (Except.ok res, [Event.finalizeReq uk fs]) :=
  retryDo_first_ok rfl

theorem uploadFile_okEnv_eq (K : String) (U : Nat → Nat → List String) (res : UploadResult)
    (job : uploadJob) (content : List Nat) (st2 : JobState) (tr : List Event)
    (hbl : batchLoop (okEnv K U res) job content job.numberOfBatches 0
        (JobState.mk job.uploadKey 0 0) = (Except.ok st2, tr)) :
    uploadFile (okEnv K U res) job content
      = (Except.ok res, tr ++ [Event.finalizeReq st2.uploadKey job.fileSize]) := by
  rw [uploadFile, hbl]
  simp only
  rw [retryDo_finOp_okEnv]

/-- C4: for every batch index i below numberOfBatches, the signed-URL
request of batch i uses firstPart = i * 25 + 1 and
partCount = min 25 (totalParts - 25 * i): the (firstPart, parts) pairs of
the signed-URL requests of a full run are exactly those of the batch
indices in order; in particular totalParts = 30 gives two batches
requesting 25 parts from firstPart 1 and 5 parts from firstPart 26. -/
theorem uploadFile_batch_plan (bk objectName fileName K : String)
    (U : Nat → Nat → List String) (res : UploadResult) (fs : Nat) (content : List Nat) :
    ((uploadFile (okEnv K U res) (newUploadJob bk objectName fileName fs) content).2).filterMap
        urlProj
      = (List.range ((fs / defaultSize + 1) / maxParts + 1)).map
          (fun i => (i * maxParts + 1, min maxParts ((fs / defaultSize + 1) - i * maxParts))) ∧
    (newUploadJob bk objectName fileName (29 * defaultSize)).totalParts = 30 ∧
    (List.range ((29 * defaultSize / defaultSize + 1) / maxParts + 1)).map
        (fun i => (i * maxParts + 1,
          min maxParts ((29 * defaultSize / defaultSize + 1) - i * maxParts)))
      = [(1, 25), (26, 5)] := by
  refine ⟨?_, by show 29 * defaultSize / defaultSize + 1 = 30; decide, by decide⟩
  rcases batchLoop_okEnv_urlProj K U res (newUploadJob bk objectName fileName fs) content
    (newUploadJob bk objectName fileName fs).numberOfBatches 0
    (JobState.mk (newUploadJob bk objectName fileName fs).uploadKey 0 0)
    with ⟨st2, tr, heq, hfm⟩
  rw [uploadFile_okEnv_eq K U res _ content st2 tr heq]
  show (tr ++ [Event.finalizeReq st2.uploadKey (newUploadJob bk objectName fileName fs).fileSize]).filterMap urlProj = _
  rw [List.filterMap_append, hfm]
  have hfun : (fun k => (k * maxParts + 1,
        (newUploadJob bk objectName fileName fs).getParts (k * maxParts)))
      = (fun i => (i * maxParts + 1, min maxParts ((fs / defaultSize + 1) - i * maxParts))) := by
    funext k
    rw [getParts_eq_min]
    rfl
  rw [hfun]
  rw [show (newUploadJob bk objectName fileName fs).numberOfBatches
    = (fs / defaultSize + 1) / maxParts + 1 from rfl]
  rw [← List.range_eq_range']
  simp [urlProj]

/-- C5: under an environment that answers every signed-URL request with
the protocol-correct URL list, a full run transfers the file chunks in
strictly increasing part-number order matching strictly increasing
file-offset order: the PUT requests of the run are exactly, for every
zero-based part index k below totalParts whose chunk is nonempty and in
ascending order of k, a PUT of bytes [k * chunkSize, (k+1) * chunkSize)
of the file to the URL of part k + 1 - the final chunk possibly shorter,
no part re-read or skipped. -/
theorem uploadFile_sequential_chunks (bk objectName fileName K : String) (res : UploadResult)
    (content : List Nat) :
    ((uploadFile (okEnv K partUrls res) (newUploadJob bk objectName fileName content.length)
        content).2).filterMap putProj
      = (List.range (content.length / defaultSize + 1)).filterMap (expectedPair content) := by
  rcases batchLoop_okEnv_putProj K res (newUploadJob bk objectName fileName content.length)
    content rfl (newUploadJob bk objectName fileName content.length).numberOfBatches 0
    (JobState.mk (newUploadJob bk objectName fileName content.length).uploadKey 0 0)
    (by simp) with ⟨st2, tr, heq, hfm, hoff⟩
  rw [uploadFile_okEnv_eq K partUrls res _ content st2 tr heq]
  show (tr ++ [Event.finalizeReq st2.uploadKey
    (newUploadJob bk objectName fileName content.length).fileSize]).filterMap putProj = _
  rw [List.filterMap_append, hfm]
  rw [show (newUploadJob bk objectName fileName content.length).totalParts
    = content.length / defaultSize + 1 from rfl]
  rw [show (newUploadJob bk objectName fileName content.length).numberOfBatches
    = (content.length / defaultSize + 1) / maxParts + 1 from rfl]
  rw [show (0 : Nat) * maxParts = 0 from by ring]
  rw [show min (maxParts * ((content.length / defaultSize + 1) / maxParts + 1))
      (content.length / defaultSize + 1 - maxParts * 0)
    = content.length / defaultSize + 1 from by
      rw [maxParts_eq]
      generalize content.length / defaultSize + 1 = tp
      omega]
  rw [← List.range_eq_range']
  simp [putProj]

theorem retryGoSt_succ_err {σ ε α : Type} {op : σ → Nat → (Except ε α × σ) × List Event}
    {s s2 : σ} {i : Nat} {e : ε} {tr : List Event}
    (h : op s i = ((Except.error e, s2), tr)) (r : Nat) :
    retryGoSt op s i (r + 1)
      = ((retryGoSt op s2 (i + 1) r).1, tr ++ (retryGoSt op s2 (i + 1) r).2) := by
  simp only [retryGoSt]
  rw [h]

theorem retryGoSt_trace_mem {σ ε α : Type} {op : σ → Nat → (Except ε α × σ) × List Event} :
    ∀ r s i ev, ev ∈ (retryGoSt op s i r).2 → ∃ s2 j, ev ∈ (op s2 j).2 := by
  intro r
  induction r with
  | zero => intro s i ev h; exact ⟨s, i, h⟩
  | succ r ih =>
    intro s i ev h
    rcases hop : op s i with ⟨⟨resx, s2⟩, tr⟩
    cases resx with
    | ok a =>
      rw [retryGoSt_succ_ok hop] at h
      exact ⟨s, i, by rw [hop]; exact h⟩
    | error e =>
      rw [retryGoSt_succ_err hop] at h
      rcases List.mem_append.mp h with h1 | h2
      · exact ⟨s, i, by rw [hop]; exact h1⟩
      · exact ih s2 (i + 1) ev h2

theorem uploadUrlsLoop_key (env : Env) (content : List Nat) :
    ∀ urls st, ((uploadUrlsLoop env content urls st).1.2).uploadKey = st.uploadKey := by
  intro urls
  induction urls with
  | nil => intro st; rfl
  | cons url rest ih =>
    intro st
    rw [uploadUrlsLoop]
    rcases hre : env.readErr st.readCount with _ | e1
    · simp only
      split
      · split
        · simp only
          exact ih _
        · rfl
      · exact ih _
    · rfl

theorem uploadUrlsLoop_events (env : Env) (content : List Nat) :
    ∀ urls st ev, ev ∈ (uploadUrlsLoop env content urls st).2 →
      ∃ u b l, ev = Event.chunkPut u b l := by
  intro urls
  induction urls with
  | nil => intro st ev h; simp [uploadUrlsLoop] at h
  | cons url rest ih =>
    intro st ev h
    rw [uploadUrlsLoop] at h
    rcases hre : env.readErr st.readCount with _ | e1
    · rw [hre] at h
      simp only at h
      split at h
      · split at h
        · rename_i heq
          simp only at h
          rcases List.mem_append.mp h with h1 | h2
          · rcases retryGoSt_trace_mem 2 _ 0 ev (by rw [heq]; exact h1) with ⟨s2, j, hm⟩
            rcases List.mem_singleton.mp hm with rfl
            exact ⟨_, _, _, rfl⟩
          · exact ih _ ev h2
        · rename_i heq
          rcases retryGoSt_trace_mem 2 _ 0 ev (by rw [heq]; exact h) with ⟨s2, j, hm⟩
          rcases List.mem_singleton.mp hm with rfl
          exact ⟨_, _, _, rfl⟩
      · exact ih _ ev h
    · rw [hre] at h
      simp at h

theorem retryGo_trace_mem_do {ε α : Type} {op : Nat → Except ε α × List Event}
    {res : Except ε α} {tr : List Event} (h : retryDo 3 op = (res, tr)) :
    ∀ ev, ev ∈ tr → ∃ j, ev ∈ (op j).2 := by
  intro ev hm
  exact retryGo_trace_mem 2 0 ev (by rw [show retryGo op 0 2 = (res, tr) from h]; exact hm)

theorem batchLoop_events (env : Env) (job : uploadJob) (content : List Nat) :
    ∀ r i st ev, ev ∈ (batchLoop env job content r i st).2 →
      (∃ fp p me uk, ev = Event.urlReq fp p me uk) ∨
      (∃ u b l, ev = Event.chunkPut u b l) := by
  intro r
  induction r with
  | zero => intro i st ev h; simp [batchLoop] at h
  | succ r ih =>
    intro i st ev h
    rw [batchLoop] at h
    simp only at h
    split at h
    · rename_i heq
      rcases retryGo_trace_mem_do heq ev h with ⟨j, hm⟩
      rcases List.mem_singleton.mp hm with rfl
      exact Or.inl ⟨_, _, _, _, rfl⟩
    · rename_i u tru heq
      split at h
      · rename_i heqi
        rcases List.mem_append.mp h with h1 | h2
        · rcases retryGo_trace_mem_do heq ev h1 with ⟨j, hm⟩
          rcases List.mem_singleton.mp hm with rfl
          exact Or.inl ⟨_, _, _, _, rfl⟩
        · exact Or.inr (uploadUrlsLoop_events env content _ _ ev (by rw [heqi]; exact h2))
      · rename_i heqi
        simp only at h
        rcases List.mem_append.mp h with h12 | h4
        · rcases List.mem_append.mp h12 with h1 | h3
          · rcases retryGo_trace_mem_do heq ev h1 with ⟨j, hm⟩
            rcases List.mem_singleton.mp hm with rfl
            exact Or.inl ⟨_, _, _, _, rfl⟩
          · exact Or.inr (uploadUrlsLoop_events env content _ _ ev (by rw [heqi]; exact h3))
        · exact ih _ _ ev h4

theorem batchLoop_key_frozen (env : Env) (job : uploadJob) (content : List Nat)
    (K : String) (hK : K ≠ "") :
    ∀ r i st, 1 ≤ i → st.uploadKey = K →
      (∀ fp p me uk, Event.urlReq fp p me uk ∈ (batchLoop env job content r i st).2
        → uk = some K) ∧
      (∀ st2, (batchLoop env job content r i st).1 = Except.ok st2 → st2.uploadKey = K) := by
  intro r
  induction r with
  | zero =>
    intro i st hi hst
    constructor
    · intro fp p me uk h
      simp [batchLoop] at h
    · intro st2 h
      cases h
      exact hst
  | succ r ih =>
    intro i st hi hst
    rw [batchLoop]
    rw [show (if st.uploadKey = "" then none else some st.uploadKey) = some K from by
      rw [hst, if_neg hK]]
    rcases hret : retryDo 3 (fun attempt =>
        (env.urlResp (i * maxParts + 1) (job.getParts (i * maxParts)) (some K) attempt,
         [Event.urlReq (i * maxParts + 1) (job.getParts (i * maxParts))
           job.minutesExpiration (some K)])) with ⟨resu, tru⟩
    cases resu with
    | error e =>
      simp only
      constructor
      · intro fp p me uk h
        rcases retryGo_trace_mem_do hret _ h with ⟨j, hm⟩
        rcases List.mem_singleton.mp hm with heq2
        injection heq2 with h1 h2 h3 h4
      · intro st2 h
        simp at h
    | ok u =>
      simp only
      rw [show (if i = 0 then u.uploadKey else st.uploadKey) = st.uploadKey from by
        rw [if_neg (by omega)]]
      rcases hil : uploadUrlsLoop env content u.urls
        { st with uploadKey := st.uploadKey } with ⟨⟨resi, st2i⟩, tri⟩
      have hkey2 : st2i.uploadKey = K := by
        have := uploadUrlsLoop_key env content u.urls { st with uploadKey := st.uploadKey }
        rw [hil] at this
        simp only at this
        rw [this]
        exact hst
      cases resi with
      | error e =>
        simp only
        constructor
        · intro fp p me uk h
          rcases List.mem_append.mp h with h1 | h2
          · rcases retryGo_trace_mem_do hret _ h1 with ⟨j, hm⟩
            rcases List.mem_singleton.mp hm with heq2
            injection heq2 with h1 h2 h3 h4
          · rcases uploadUrlsLoop_events env content _ _ _ (by rw [hil]; exact h2)
              with ⟨u2, b2, l2, heq2⟩
            cases heq2
        · intro st2 h
          simp at h
      | ok uu =>
        simp only
        rcases ih (i + 1) st2i (by omega) hkey2 with ⟨iha, ihb⟩
        constructor
        · intro fp p me uk h
          rcases List.mem_append.mp h with h12 | h4
          · rcases List.mem_append.mp h12 with h1 | h3
            · rcases retryGo_trace_mem_do hret _ h1 with ⟨j, hm⟩
              rcases List.mem_singleton.mp hm with heq2
              injection heq2 with h1 h2 h3 h4
            · rcases uploadUrlsLoop_events env content _ _ _ (by rw [hil]; exact h3)
                with ⟨u2, b2, l2, heq2⟩
              cases heq2
          · exact iha fp p me uk h4
        · intro st2 h
          exact ihb st2 h

theorem retryDo_ok_exists_do {ε α : Type} {op : Nat → Except ε α × List Event}
    {a : α} {tr : List Event} (h : retryDo 3 op = (Except.ok a, tr)) :
    ∃ j, (op j).1 = Except.ok a :=
  retryGo_ok_exists 2 0 (by rw [show retryGo op 0 2 = (Except.ok a, tr) from h])

theorem uploadFile_ok_eq (env : Env) (job : uploadJob) (content : List Nat)
    (st : JobState) (tr : List Event)
    (hbl : batchLoop env job content job.numberOfBatches 0 (JobState.mk job.uploadKey 0 0)
      = (Except.ok st, tr)) :
    uploadFile env job content
      = (match retryDo 3 (fun attempt => (env.finalizeResp st.uploadKey job.fileSize attempt,
            [Event.finalizeReq st.uploadKey job.fileSize])) with
         | (Except.error e, tr2) => (Except.error (finalizeErrMsg e), tr ++ tr2)
         | (Except.ok result, tr2) => (Except.ok result, tr ++ tr2)) := by
  rw [uploadFile, hbl]

/-- C3: the upload-session token captured from the first batch response
(every successful signed-URL response carries the fixed nonempty session
token K) is passed unchanged as the uploadKey query parameter of every
subsequent batch request (firstPart above maxParts means batch index at
least 1) and as the uploadKey field of the finalize request body. -/
theorem uploadFile_uploadKey_reused (env : Env) (job : uploadJob) (content : List Nat)
    (K : String) (hK : K ≠ "") (hjk : job.uploadKey = "")
    (hnb : 1 ≤ job.numberOfBatches)
    (henv : ∀ fp p uk a r2, env.urlResp fp p uk a = Except.ok r2 → r2.uploadKey = K) :
    (∀ fp p me uk,
      Event.urlReq fp p me uk ∈ (uploadFile env job content).2 → maxParts < fp
        → uk = some K) ∧
    (∀ uk2 sz, Event.finalizeReq uk2 sz ∈ (uploadFile env job content).2 → uk2 = K) := by
  obtain ⟨n, hn⟩ : ∃ n, job.numberOfBatches = n + 1 := ⟨job.numberOfBatches - 1, by omega⟩
  rcases hbl : batchLoop env job content job.numberOfBatches 0 (JobState.mk job.uploadKey 0 0)
    with ⟨resB, btr⟩
  have hbl2 := hbl
  rw [hn, batchLoop, hjk] at hbl
  rw [if_pos (show (JobState.mk ("" : String) 0 0).uploadKey = "" from rfl)] at hbl
  split at hbl
  · rename_i e tru heq
    injection hbl with h1 h2
    subst h1
    subst h2
    have htru : ∀ ev, ev ∈ tru → ev = Event.urlReq (0 * maxParts + 1)
        (job.getParts (0 * maxParts)) job.minutesExpiration none := by
      intro ev hm
      rcases retryGo_trace_mem_do heq _ hm with ⟨j, hmem⟩
      exact List.mem_singleton.mp hmem
    rw [uploadFile, hbl2]
    constructor
    · intro fp p me uk hm hfp
      have heq2 := htru _ hm
      injection heq2 with e1 e2 e3 e4
      exact absurd hfp (by rw [maxParts_eq]; omega)
    · intro uk2 sz hm
      cases htru _ hm
  · rename_i u tru heq
    rw [if_pos (rfl : (0 : Nat) = 0)] at hbl
    simp only at hbl
    have htru : ∀ ev, ev ∈ tru → ev = Event.urlReq (0 * maxParts + 1)
        (job.getParts (0 * maxParts)) job.minutesExpiration none := by
      intro ev hm
      rcases retryGo_trace_mem_do heq _ hm with ⟨j, hmem⟩
      exact List.mem_singleton.mp hmem
    have hu : u.uploadKey = K := by
      rcases retryDo_ok_exists_do heq with ⟨j, hj⟩
      exact henv _ _ _ _ _ hj
    rcases heqi : uploadUrlsLoop env content u.urls (JobState.mk u.uploadKey 0 0)
      with ⟨⟨resi, st2i⟩, tri⟩
    rw [heqi] at hbl
    have htri : ∀ ev, ev ∈ tri → ∃ u2 b2 l2, ev = Event.chunkPut u2 b2 l2 := fun ev hm =>
      uploadUrlsLoop_events env content _ _ ev (by rw [heqi]; exact hm)
    have hst2i : st2i.uploadKey = K := by
      have hkp := uploadUrlsLoop_key env content u.urls (JobState.mk u.uploadKey 0 0)
      rw [heqi] at hkp
      simp only at hkp
      rw [hkp]
      exact hu
    cases resi with
    | error e =>
      simp only at hbl
      injection hbl with h1 h2
      subst h1
      subst h2
      rw [uploadFile, hbl2]
      constructor
      · intro fp p me uk hm hfp
        rcases List.mem_append.mp hm with h1 | h2
        · have heq2 := htru _ h1
          injection heq2 with e1 e2 e3 e4
          exact absurd hfp (by rw [maxParts_eq]; omega)
        · rcases htri _ h2 with ⟨u2, b2, l2, heq2⟩
          cases heq2
      · intro uk2 sz hm
        rcases List.mem_append.mp hm with h1 | h2
        · cases htru _ h1
        · rcases htri _ h2 with ⟨u2, b2, l2, heq2⟩
          cases heq2
    | ok uu =>
      simp only at hbl
      rcases batchLoop_key_frozen env job content K hK n 1 st2i (le_refl 1) hst2i
        with ⟨iha, ihb⟩
      rcases hnext : batchLoop env job content n 1 st2i with ⟨resN, trN⟩
      rw [hnext] at hbl
      simp only at hbl
      injection hbl with h1 h2
      subst h1
      subst h2
      cases resN with
      | error e2 =>
        rw [uploadFile, hbl2]
        constructor
        · intro fp p me uk hm hfp
          rcases List.mem_append.mp hm with h12 | h4
          · rcases List.mem_append.mp h12 with h1 | h2
            · have heq2 := htru _ h1
              injection heq2 with e1 e2 e3 e4
              exact absurd hfp (by rw [maxParts_eq]; omega)
            · rcases htri _ h2 with ⟨u2, b2, l2, heq2⟩
              cases heq2
          · exact iha fp p me uk (by rw [hnext]; exact h4)
        · intro uk2 sz hm
          rcases List.mem_append.mp hm with h12 | h4
          · rcases List.mem_append.mp h12 with h1 | h2
            · cases htru _ h1
            · rcases htri _ h2 with ⟨u2, b2, l2, heq2⟩
              cases heq2
          · rcases batchLoop_events env job content n 1 st2i _ (by rw [hnext]; exact h4)
              with ⟨fp2, p2, me2, uk3, heq2⟩ | ⟨u2, b2, l2, heq2⟩
            · cases heq2
            · cases heq2
      | ok stF =>
        rw [uploadFile_ok_eq env job content stF (tru ++ tri ++ trN) hbl2]
        rcases hfin : retryDo 3 (fun attempt => (env.finalizeResp stF.uploadKey
            job.fileSize attempt, [Event.finalizeReq stF.uploadKey job.fileSize]))
          with ⟨resF, ftr⟩
        have hftr : ∀ ev, ev ∈ ftr
            → ev = Event.finalizeReq stF.uploadKey job.fileSize := by
          intro ev hm
          rcases retryGo_trace_mem_do hfin _ hm with ⟨j, hmem⟩
          exact List.mem_singleton.mp hmem
        have hkF : stF.uploadKey = K := ihb stF (by rw [hnext])
        have hmain : ∀ tr2, (∀ ev, ev ∈ tr2 → ev = Event.finalizeReq stF.uploadKey
            job.fileSize) →
            (∀ fp p me uk, Event.urlReq fp p me uk
                ∈ tru ++ tri ++ trN ++ tr2 → maxParts < fp → uk = some K) ∧
            (∀ uk2 sz, Event.finalizeReq uk2 sz ∈ tru ++ tri ++ trN ++ tr2
                → uk2 = K) := by
          intro tr2 htr2
          constructor
          · intro fp p me uk hm hfp
            rcases List.mem_append.mp hm with h123 | h5
            · rcases List.mem_append.mp h123 with h12 | h4
              · rcases List.mem_append.mp h12 with h1 | h2
                · have heq2 := htru _ h1
                  injection heq2 with e1 e2 e3 e4
                  exact absurd hfp (by rw [maxParts_eq]; omega)
                · rcases htri _ h2 with ⟨u2, b2, l2, heq2⟩
                  cases heq2
              · exact iha fp p me uk (by rw [hnext]; exact h4)
            · cases htr2 _ h5
          · intro uk2 sz hm
            rcases List.mem_append.mp hm with h123 | h5
            · rcases List.mem_append.mp h123 with h12 | h4
              · rcases List.mem_append.mp h12 with h1 | h2
                · cases htru _ h1
                · rcases htri _ h2 with ⟨u2, b2, l2, heq2⟩
                  cases heq2
              · rcases batchLoop_events env job content n 1 st2i _
                    (by rw [hnext]; exact h4)
                  with ⟨fp2, p2, me2, uk3, heq2⟩ | ⟨u2, b2, l2, heq2⟩
                · cases heq2
                · cases heq2
            · have heq2 := htr2 _ h5
              injection heq2 with g1 g2
              rw [g1]
              exact hkF
        cases resF with
        | error e3 =>
          exact hmain ftr hftr
        | ok resOk =>
          exact hmain ftr hftr

theorem uploadFile_uploadKey_reused_witness :
    (∀ fp p me uk, Event.urlReq fp p me uk
        ∈ (uploadFile (okEnv "KEY" partUrls (UploadResult.mk "oid" 7 "loc"))
            (newUploadJob "b" "o" "f" (24 * defaultSize)) []).2
      → maxParts < fp → uk = some "KEY") ∧
    (∀ uk2 sz, Event.finalizeReq uk2 sz
        ∈ (uploadFile (okEnv "KEY" partUrls (UploadResult.mk "oid" 7 "loc"))
            (newUploadJob "b" "o" "f" (24 * defaultSize)) []).2
      → uk2 = "KEY") := by
  exact uploadFile_uploadKey_reused (okEnv "KEY" partUrls (UploadResult.mk "oid" 7 "loc"))
    (newUploadJob "b" "o" "f" (24 * defaultSize)) [] "KEY" (by decide) rfl (by decide)
    (by intro fp p uk a r2 h; cases h; rfl)

theorem batchLoop_okEnv_last (K : String) (res : UploadResult) (job : uploadJob)
    (content : List Nat) :
    ∀ r i st, 1 ≤ r → job.getParts ((i + r - 1) * maxParts) = 0 →
      ∃ st2 pre ukp,
        batchLoop (okEnv K partUrls res) job content r i st
          = (Except.ok st2,
             pre ++ [Event.urlReq ((i + r - 1) * maxParts + 1) 0
               job.minutesExpiration ukp]) := by
  intro r
  induction r with
  | zero => intro i st h0 hp; omega
  | succ r ih =>
    intro i st h1 hp
    cases r with
    | zero =>
      rw [show i + 1 - 1 = i from by omega] at hp
      refine ⟨JobState.mk (if i = 0 then K else st.uploadKey) st.offset st.readCount, [],
        if st.uploadKey = "" then none else some st.uploadKey, ?_⟩
      rw [batchLoop, retryDo_urlOp_okEnv K partUrls res _ _ _ _]
      simp only
      rw [hp, partUrls_zero, uploadUrlsLoop_nil]
      simp only
      rw [show i + 1 - 1 = i from by omega]
      rfl
    | succ r' =>
      have hp2 : job.getParts ((i + 1 + (r' + 1) - 1) * maxParts) = 0 := by
        rw [show i + 1 + (r' + 1) - 1 = i + (r' + 1 + 1) - 1 from by omega]
        exact hp
      rcases uploadUrlsLoop_okEnv_ok K partUrls res content
        (partUrls (i * maxParts + 1) (job.getParts (i * maxParts)))
        { st with uploadKey := if i = 0 then K else st.uploadKey } with ⟨st2i, tri, heqi, hfm0⟩
      rcases ih (i + 1) st2i (by omega) hp2 with ⟨st2, pre, ukp, heqR⟩
      refine ⟨st2, [Event.urlReq (i * maxParts + 1) (job.getParts (i * maxParts))
        job.minutesExpiration (if st.uploadKey = "" then none else some st.uploadKey)]
          ++ tri ++ pre, ukp, ?_⟩
      rw [batchLoop, retryDo_urlOp_okEnv K partUrls res _ _ _ _]
      simp only
      rw [heqi]
      simp only
      rw [heqR]
      rw [show i + (r' + 1 + 1) - 1 = i + 1 + (r' + 1) - 1 from by omega]
      simp [List.append_assoc]

/-- C9: when totalParts is a positive exact multiple of 25 (say 25 * m),
numberOfBatches = totalParts / 25 + 1 = m + 1, so the final loop
iteration computes partsInBatch = 0 and uploadFile still issues one extra
signed-URL request with parts = 0 - uploading no chunks for it, the
request being immediately followed by the finalize request - and the
(firstPart, parts) pairs of the run are those of batches 0..m with the
last equal to (25 * m + 1, 0). -/
theorem uploadFile_multiple_of_25_extra_batch (bk objectName fileName K : String)
    (res : UploadResult) (fs m : Nat) (content : List Nat) (hm : 1 ≤ m)
    (hfs : fs / defaultSize + 1 = 25 * m) :
    (newUploadJob bk objectName fileName fs).numberOfBatches = m + 1 ∧
    (∃ pre ukp uk2,
      (uploadFile (okEnv K partUrls res) (newUploadJob bk objectName fileName fs)
          content).2
        = pre ++ [Event.urlReq (25 * m + 1) 0 minutesExpiration ukp,
                  Event.finalizeReq uk2 fs]) ∧
    ((uploadFile (okEnv K partUrls res) (newUploadJob bk objectName fileName fs)
        content).2).filterMap urlProj
      = (List.range (m + 1)).map
          (fun i => (i * maxParts + 1, min maxParts (25 * m - i * maxParts))) := by
  have hnb : (newUploadJob bk objectName fileName fs).numberOfBatches = m + 1 := by
    show (fs / defaultSize + 1) / maxParts + 1 = m + 1
    rw [hfs, maxParts_eq]
    omega
  have hlast : (newUploadJob bk objectName fileName fs).getParts
      ((0 + (newUploadJob bk objectName fileName fs).numberOfBatches - 1) * maxParts)
      = 0 := by
    rw [hnb, show 0 + (m + 1) - 1 = m from by omega, getParts_eq_min,
      show (newUploadJob bk objectName fileName fs).totalParts
        = fs / defaultSize + 1 from rfl, hfs, maxParts_eq]
    omega
  rcases batchLoop_okEnv_last K res (newUploadJob bk objectName fileName fs) content
    (newUploadJob bk objectName fileName fs).numberOfBatches 0
    (JobState.mk (newUploadJob bk objectName fileName fs).uploadKey 0 0)
    (by rw [hnb]; omega) hlast with ⟨st2, pre, ukp, heq⟩
  rcases batchLoop_okEnv_urlProj K partUrls res (newUploadJob bk objectName fileName fs)
    content (newUploadJob bk objectName fileName fs).numberOfBatches 0
    (JobState.mk (newUploadJob bk objectName fileName fs).uploadKey 0 0)
    with ⟨st2b, trb, heqb, hfmb⟩
  rw [heq] at heqb
  injection heqb with hb1 hb2
  refine ⟨hnb, ⟨pre, ukp, st2.uploadKey, ?_⟩, ?_⟩
  · rw [uploadFile_okEnv_eq K partUrls res _ content st2 _ heq]
    rw [hnb, show 0 + (m + 1) - 1 = m from by omega, maxParts_eq,
      show m * 25 = 25 * m from by ring]
    simp [List.append_assoc]
    exact ⟨rfl, rfl⟩
  · rw [uploadFile_okEnv_eq K partUrls res _ content st2 _ heq]
    dsimp only
    rw [List.filterMap_append]
    rw [hb2, hfmb]
    rw [show ((newUploadJob bk objectName fileName fs).numberOfBatches) = m + 1 from hnb]
    rw [← List.range_eq_range']
    have hfun : (fun k => (k * maxParts + 1,
          (newUploadJob bk objectName fileName fs).getParts (k * maxParts)))
        = (fun i => (i * maxParts + 1, min maxParts (25 * m - i * maxParts))) := by
      funext k
      rw [getParts_eq_min,
        show (newUploadJob bk objectName fileName fs).totalParts
          = fs / defaultSize + 1 from rfl, hfs]
    rw [hfun]
    simp [urlProj]

theorem uploadFile_multiple_of_25_extra_batch_witness :
    (newUploadJob "b" "o" "f" (24 * defaultSize)).numberOfBatches = 1 + 1 ∧
    (∃ pre ukp uk2,
      (uploadFile (okEnv "K" partUrls (UploadResult.mk "oid" 7 "loc"))
          (newUploadJob "b" "o" "f" (24 * defaultSize)) []).2
        = pre ++ [Event.urlReq (25 * 1 + 1) 0 minutesExpiration ukp,
                  Event.finalizeReq uk2 (24 * defaultSize)]) ∧
    ((uploadFile (okEnv "K" partUrls (UploadResult.mk "oid" 7 "loc"))
        (newUploadJob "b" "o" "f" (24 * defaultSize)) []).2).filterMap urlProj
      = (List.range (1 + 1)).map
          (fun i => (i * maxParts + 1, min maxParts (25 * 1 - i * maxParts))) := by
  exact uploadFile_multiple_of_25_extra_batch "b" "o" "f" "K"
    (UploadResult.mk "oid" 7 "loc") (24 * defaultSize) 1 [] (by decide) (by decide)
end ForgeOss
